import Mathlib

set_option maxRecDepth 40000
set_option linter.unnecessarySimpa false

/-!
Verification development for the `waterloo-bc-workshop-2023` repository: a
shallow embedding of the NEAR messenger indexer pipeline
(`tooling/indexer/src`) and of the contract event format
(`contract/src/events.rs`, `contract/src/types.rs`), with theorems settling
the specification claims about block polling, chunk routing, receipt
handling, outcome re-query, event encoding and the event log.

Rust `String`s are embedded as `List Char` (wrapped into Lean `String` at
the API boundary where the source signature uses `String`), byte arrays as
`List Nat` with values below 256, and hashes (`CryptoHash`, 32 bytes) as
`List Nat`.
-/

/-! ## Little-endian digit expansion with explicit fuel -/

/-- Fuel-indexed little-endian base-`b` digit expansion, a kernel-computable
counterpart of `Nat.digits` (they agree whenever `n < b ^ fuel`). -/
def digitsLE (b : Nat) : Nat → Nat → List Nat
  | 0, _ => []
  | fuel + 1, n => if n = 0 then [] else n % b :: digitsLE b fuel (n / b)

/-- Big-endian evaluation of a digit string, folding `acc * b + d` left to
right exactly as the `bs58` crate accumulates a decoded value. -/
def foldDigits (b : Nat) (l : List Nat) : Nat :=
  l.foldl (fun acc d => acc * b + d) 0

/-! ## Base-58, as implemented by the `bs58` crate used by
`near_primitives::hash::CryptoHash` and `contract/src/types.rs` -/

/-- The bitcoin base-58 alphabet used by the `bs58` crate. -/
def b58Alphabet : List Char :=
  "123456789ABCDEFGHJKLMNPQRSTUVWXYZabcdefghijkmnopqrstuvwxyz".data

/-- Character for the base-58 digit `d`. -/
def b58Char (d : Nat) : Char := b58Alphabet.getD d '1'

/-- Value of a base-58 character, `none` when the character is not in the
alphabet. -/
def b58Val (c : Char) : Option Nat :=
  if c ∈ b58Alphabet then some (b58Alphabet.indexOf c) else none

/-- Values of all characters of a candidate base-58 string; `none` as soon as
one character is invalid. -/
def b58Vals : List Char → Option (List Nat)
  | [] => some []
  | c :: cs =>
    match b58Val c, b58Vals cs with
    | some d, some ds => some (d :: ds)
    | _, _ => none

/-- Base-58 decoding as implemented by the `bs58` crate: every character must
be in the alphabet; the result is one zero byte per leading `1` character
followed by the big-endian base-256 expansion of the base-58 value of the
whole string. -/
def b58Decode (s : List Char) : Option (List Nat) :=
  (b58Vals s).map fun ds =>
    List.replicate (s.takeWhile (· == '1')).length 0 ++
      (digitsLE 256 s.length (foldDigits 58 ds)).reverse

/-- Base-58 encoding as implemented by the `bs58` crate: one `1` character per
leading zero byte, followed by the base-58 digits of the big-endian value of
the bytes. -/
def b58Encode (bytes : List Nat) : List Char :=
  List.replicate (bytes.takeWhile (· == 0)).length '1' ++
    ((digitsLE 58 (2 * bytes.length) (foldDigits 256 bytes)).reverse.map b58Char)

/-! ## Rust string primitives used by the indexer -/

/-- Rust `str::strip_prefix`, on character lists: the remainder when the
pattern is a prefix, `none` otherwise. -/
def stripPref (p s : List Char) : Option (List Char) :=
  if p.isPrefixOf s then some (s.drop p.length) else none

/-- Rust `str::contains` for a literal pattern, on character lists. -/
def containsSub (s pat : List Char) : Bool :=
  s.tails.any fun t => pat.isPrefixOf t

/-! ## `CryptoHash` (`near_primitives::hash`) -/

/-- A 32-byte hash (`near_primitives::hash::CryptoHash`), embedded as its
byte list. -/
abbrev CryptoHash := List Nat

/-- The literal pattern `"block "` matched by
`try_parse_block_hash_from_err_message`. -/
def blockSpaceLit : List Char := "block ".data

/-- Models `CryptoHash::from_str`: base-58 decode of the string, succeeding
exactly when the decoded byte string is 32 bytes long. -/
def CryptoHash.fromStr (s : List Char) : Option CryptoHash :=
  (b58Decode s).bind fun bytes => if bytes.length = 32 then some bytes else none

/-- Models `try_parse_block_hash_from_err_message` in
`tooling/indexer/src/receipt_handler.rs`: strip the prefix `"block "` from
the error text (failing when the text does not start with it), take the
token up to the next space, and parse it as a base-58 `CryptoHash`. -/
def try_parse_block_hash_from_err_message (msg : String) : Option CryptoHash :=
  (stripPref blockSpaceLit msg.data).bind fun m =>
    CryptoHash.fromStr (m.takeWhile (· != ' '))

/-! ## Contract events (`contract/src/events.rs`, `contract/src/types.rs`) -/

/-- Kind payload of a contract event (`EventKind` in `events.rs`). Account
identifiers are character lists; a `MessageId` is embedded as its 32-byte
value. -/
inductive EventKind
  | pendingContactRequest (sender receiver : List Char)
  | receivedContactRequest (sender receiver : List Char)
  | newContact (thisAcc contact : List Char)
  | messageSent (sender receiver : List Char)
  | messageReceived (sender receiver : List Char) (messageId : List Nat)
  deriving DecidableEq

/-- A contract event (`Event` in `events.rs`): standard and version strings
plus the flattened kind payload. -/
structure Event where
  standard : List Char
  version : List Char
  event_kind : EventKind
  deriving DecidableEq

/-- Lowercase hexadecimal digit, as emitted by `serde_json` in `\u00XX`
escapes. -/
def hexDig (n : Nat) : Char := "0123456789abcdef".data.getD n '0'

/-- Escaping of one character inside a JSON string as `serde_json` performs
it: quote and backslash are escaped, control characters below 0x20 use the
short escapes or the `\u00XX` form, everything else is copied verbatim. -/
def escChar (c : Char) : List Char :=
  if c = '"' then ['\\', '"']
  else if c = '\\' then ['\\', '\\']
  else if c.toNat < 32 then
    if c = '\x08' then ['\\', 'b']
    else if c = '\t' then ['\\', 't']
    else if c = '\n' then ['\\', 'n']
    else if c = '\x0c' then ['\\', 'f']
    else if c = '\r' then ['\\', 'r']
    else ['\\', 'u', '0', '0', hexDig (c.toNat / 16), hexDig (c.toNat % 16)]
  else [c]

/-- Escaping of a whole JSON string body. -/
def escStr : List Char → List Char
  | [] => []
  | c :: cs => escChar c ++ escStr cs

/-- serde_json rendering of a JSON string: quoted, content escaped. -/
def renderString (s : List Char) : List Char := '"' :: (escStr s ++ ['"'])

/-- Models `From<MessageId> for String` (`contract/src/types.rs`): base-58
rendering of the 32-byte message id. -/
def messageIdToString (id : List Nat) : List Char := b58Encode id

/-- Models `TryFrom<String> for MessageId` (`contract/src/types.rs`):
base-58 decode, requiring exactly 32 bytes. -/
def messageIdFromString (s : List Char) : Option (List Nat) :=
  (b58Decode s).bind fun bytes => if bytes.length = 32 then some bytes else none

def tagPCR : List Char := "pending_contact_request".data

def tagRCR : List Char := "received_contact_request".data

def tagNC : List Char := "new_contact".data

def tagMS : List Char := "message_sent".data

def tagMR : List Char := "message_received".data

/-- serde tag (the `event` field) of each `EventKind` discriminant, per the
`snake_case` rename in `events.rs`. -/
def eventTag : EventKind → List Char
  | .pendingContactRequest _ _ => tagPCR
  | .receivedContactRequest _ _ => tagRCR
  | .newContact _ _ => tagNC
  | .messageSent _ _ => tagMS
  | .messageReceived _ _ _ => tagMR

/-! Literal segments of the compact serde_json encoding. -/

def jsonKeyStandard : List Char := "\x7b\"standard\":".data

def jsonKeyVersion : List Char := ",\"version\":".data

def jsonKeyEvent : List Char := ",\"event\":".data

def jsonKeyData : List Char := ",\"data\":".data

def jsonKeySender : List Char := "\x7b\"sender\":".data

def jsonKeyReceiver : List Char := ",\"receiver\":".data

def jsonKeyMessageId : List Char := ",\"message_id\":".data

def jsonKeyThis : List Char := "\x7b\"this\":".data

def jsonKeyContact : List Char := ",\"contact\":".data

def jsonCloseBrace : List Char := "\x7d".data

/-- serde_json compact serialization of the `data` payload object of each
discriminant. -/
def dataJson : EventKind → List Char
  | .pendingContactRequest s r =>
      jsonKeySender ++ renderString s ++ jsonKeyReceiver ++ renderString r ++
        jsonCloseBrace
  | .receivedContactRequest s r =>
      jsonKeySender ++ renderString s ++ jsonKeyReceiver ++ renderString r ++
        jsonCloseBrace
  | .newContact t c =>
      jsonKeyThis ++ renderString t ++ jsonKeyContact ++ renderString c ++
        jsonCloseBrace
  | .messageSent s r =>
      jsonKeySender ++ renderString s ++ jsonKeyReceiver ++ renderString r ++
        jsonCloseBrace
  | .messageReceived s r id =>
      jsonKeySender ++ renderString s ++ jsonKeyReceiver ++ renderString r ++
        jsonKeyMessageId ++ renderString (messageIdToString id) ++ jsonCloseBrace

/-- serde_json compact serialization of an `Event` (`serde_json::to_string`):
the `standard` and `version` fields followed by the flattened
adjacently-tagged kind, `event` then `data`. -/
def eventToJson (e : Event) : List Char :=
  jsonKeyStandard ++ renderString e.standard ++
    jsonKeyVersion ++ renderString e.version ++
    jsonKeyEvent ++ renderString (eventTag e.event_kind) ++
    jsonKeyData ++ dataJson e.event_kind ++ jsonCloseBrace

/-! Literal segments of the pretty serde_json encoding
(`serde_json::to_string_pretty`, two-space indentation). -/

def pKeyStandard : List Char := "\x7b\n  \"standard\": ".data

def pKeyVersion : List Char := ",\n  \"version\": ".data

def pKeyEvent : List Char := ",\n  \"event\": ".data

def pKeyData : List Char := ",\n  \"data\": ".data

def pKeySender : List Char := "\x7b\n    \"sender\": ".data

def pKeyReceiver : List Char := ",\n    \"receiver\": ".data

def pKeyMessageId : List Char := ",\n    \"message_id\": ".data

def pKeyThis : List Char := "\x7b\n    \"this\": ".data

def pKeyContact : List Char := ",\n    \"contact\": ".data

def pCloseInner : List Char := "\n  \x7d".data

def pCloseOuter : List Char := "\n\x7d".data

/-- serde_json pretty serialization of the `data` payload object. -/
def dataJsonPretty : EventKind → List Char
  | .pendingContactRequest s r =>
      pKeySender ++ renderString s ++ pKeyReceiver ++ renderString r ++
        pCloseInner
  | .receivedContactRequest s r =>
      pKeySender ++ renderString s ++ pKeyReceiver ++ renderString r ++
        pCloseInner
  | .newContact t c =>
      pKeyThis ++ renderString t ++ pKeyContact ++ renderString c ++
        pCloseInner
  | .messageSent s r =>
      pKeySender ++ renderString s ++ pKeyReceiver ++ renderString r ++
        pCloseInner
  | .messageReceived s r id =>
      pKeySender ++ renderString s ++ pKeyReceiver ++ renderString r ++
        pKeyMessageId ++ renderString (messageIdToString id) ++ pCloseInner

/-- serde_json pretty serialization of an `Event`
(`serde_json::to_string_pretty`), the form `ReceiptHandler::write_event`
persists. -/
def eventToJsonPretty (e : Event) : List Char :=
  pKeyStandard ++ renderString e.standard ++
    pKeyVersion ++ renderString e.version ++
    pKeyEvent ++ renderString (eventTag e.event_kind) ++
    pKeyData ++ dataJsonPretty e.event_kind ++ pCloseOuter

/-- The `EVENT_JSON:` sentinel prefix of `events.rs` and
`receipt_handler.rs`. -/
def eventJsonPrefixLit : List Char := "EVENT_JSON:".data

/-- Models `Event::to_log` (`events.rs`): the sentinel prefix followed by the
compact serde_json encoding. -/
def Event.to_log (e : Event) : String :=
  String.mk (eventJsonPrefixLit ++ eventToJson e)

/-- The bytes one `ReceiptHandler::write_event` call appends to the event-log
file: the pretty serde_json encoding followed by a single newline byte
(`receipt_handler.rs`). -/
def writeEventChunk (e : Event) : List Char := eventToJsonPretty e ++ ['\n']

/-! NEAR account-id validation, performed by the serde `Deserialize` impl of
`AccountId` (crate `near-account-id`). -/

/-- Characters allowed in a NEAR account id. -/
def isAccChar (c : Char) : Bool :=
  ('a' ≤ c && c ≤ 'z') || ('0' ≤ c && c ≤ '9') || c == '-' || c == '_' || c == '.'

/-- Separator characters of a NEAR account id. -/
def isSepChar (c : Char) : Bool := c == '-' || c == '_' || c == '.'

/-- No two adjacent separator characters. -/
def noAdjacentSeps : List Char → Bool
  | [] => true
  | [_] => true
  | a :: b :: rest => (!(isSepChar a && isSepChar b)) && noAdjacentSeps (b :: rest)

/-- Models the `near-account-id` validation rule: length between 2 and 64,
characters from `a-z0-9-_.`, no leading or trailing separator, no two
adjacent separators. -/
def isValidAccountId (s : List Char) : Bool :=
  decide (2 ≤ s.length) && decide (s.length ≤ 64) && s.all isAccChar &&
    (match s with
     | [] => false
     | c :: _ => !isSepChar c) &&
    (match s.getLast? with
     | none => false
     | some c => !isSepChar c) &&
    noAdjacentSeps s

/-- Accounts valid and, for `message_received`, a 32-byte message id: the
invariants every `Event` the contract can construct satisfies (`AccountId`
is validated on construction, `MessageId` wraps 32 bytes). -/
def wellFormedKind : EventKind → Bool
  | .pendingContactRequest s r => isValidAccountId s && isValidAccountId r
  | .receivedContactRequest s r => isValidAccountId s && isValidAccountId r
  | .newContact t c => isValidAccountId t && isValidAccountId c
  | .messageSent s r => isValidAccountId s && isValidAccountId r
  | .messageReceived s r id =>
      isValidAccountId s && isValidAccountId r &&
        decide (id.length = 32) && id.all fun b => decide (b < 256)

/-- Well-formedness of an `Event` value reachable in the Rust program. -/
def wellFormedEvent (e : Event) : Bool := wellFormedKind e.event_kind

/-! Deserialization (`serde_json::from_str::<Event>` in `parse_event`). -/

/-- Hexadecimal digit value accepted by serde_json `\u` escapes. -/
def parseHex (c : Char) : Option Nat :=
  if '0' ≤ c && c ≤ '9' then some (c.toNat - 48)
  else if 'a' ≤ c && c ≤ 'f' then some (c.toNat - 87)
  else if 'A' ≤ c && c ≤ 'F' then some (c.toNat - 55)
  else none

/-- JSON string-body parser (after the opening quote), modelling serde_json
string parsing: returns the unescaped content and the input after the
closing quote. -/
def parseStrBody : List Char → Option (List Char × List Char)
  | [] => none
  | c :: cs =>
    if c = '"' then some ([], cs)
    else if c = '\\' then
      match cs with
      | [] => none
      | e :: cs2 =>
        if e = '"' then (parseStrBody cs2).map fun p => ('"' :: p.1, p.2)
        else if e = '\\' then (parseStrBody cs2).map fun p => ('\\' :: p.1, p.2)
        else if e = '/' then (parseStrBody cs2).map fun p => ('/' :: p.1, p.2)
        else if e = 'b' then (parseStrBody cs2).map fun p => ('\x08' :: p.1, p.2)
        else if e = 'f' then (parseStrBody cs2).map fun p => ('\x0c' :: p.1, p.2)
        else if e = 'n' then (parseStrBody cs2).map fun p => ('\n' :: p.1, p.2)
        else if e = 'r' then (parseStrBody cs2).map fun p => ('\r' :: p.1, p.2)
        else if e = 't' then (parseStrBody cs2).map fun p => ('\t' :: p.1, p.2)
        else if e = 'u' then
          match cs2 with
          | h1 :: h2 :: h3 :: h4 :: cs3 =>
            match parseHex h1, parseHex h2, parseHex h3, parseHex h4 with
            | some v1, some v2, some v3, some v4 =>
              (parseStrBody cs3).map fun p =>
                (Char.ofNat (((v1 * 16 + v2) * 16 + v3) * 16 + v4) :: p.1, p.2)
            | _, _, _, _ => none
          | _ => none
        else none
    else (parseStrBody cs).map fun p => (c :: p.1, p.2)

/-- Parse a JSON string token: opening quote, body, closing quote. -/
def parseJString : List Char → Option (List Char × List Char)
  | [] => none
  | c :: cs => if c = '"' then parseStrBody cs else none

/-- Expect the exact literal `lit` at the head of the input. -/
def expectLit (lit cs : List Char) : Option (List Char) :=
  if lit.isPrefixOf cs then some (cs.drop lit.length) else none

/-- Parse a JSON string and validate it as a NEAR account id, as the serde
`Deserialize` impl of `AccountId` does. -/
def parseAccount (cs : List Char) : Option (List Char × List Char) :=
  (parseJString cs).bind fun p => if isValidAccountId p.1 then some p else none

/-- Parse a two-account `data` object with the given key segments. -/
def parseTwoFieldData (k1 k2 cs : List Char) :
    Option ((List Char × List Char) × List Char) :=
  (expectLit k1 cs).bind fun cs1 =>
  (parseAccount cs1).bind fun p1 =>
  (expectLit k2 p1.2).bind fun cs2 =>
  (parseAccount cs2).bind fun p2 =>
  (expectLit jsonCloseBrace p2.2).map fun cs3 => ((p1.1, p2.1), cs3)

/-- Parse the `data` payload for the given `event` tag. -/
def parseDataFor (tag cs : List Char) : Option (EventKind × List Char) :=
  if tag = tagPCR then
    (parseTwoFieldData jsonKeySender jsonKeyReceiver cs).map fun p =>
      (.pendingContactRequest p.1.1 p.1.2, p.2)
  else if tag = tagRCR then
    (parseTwoFieldData jsonKeySender jsonKeyReceiver cs).map fun p =>
      (.receivedContactRequest p.1.1 p.1.2, p.2)
  else if tag = tagNC then
    (parseTwoFieldData jsonKeyThis jsonKeyContact cs).map fun p =>
      (.newContact p.1.1 p.1.2, p.2)
  else if tag = tagMS then
    (parseTwoFieldData jsonKeySender jsonKeyReceiver cs).map fun p =>
      (.messageSent p.1.1 p.1.2, p.2)
  else if tag = tagMR then
    (expectLit jsonKeySender cs).bind fun cs1 =>
    (parseAccount cs1).bind fun p1 =>
    (expectLit jsonKeyReceiver p1.2).bind fun cs2 =>
    (parseAccount cs2).bind fun p2 =>
    (expectLit jsonKeyMessageId p2.2).bind fun cs3 =>
    (parseJString cs3).bind fun pm =>
    (messageIdFromString pm.1).bind fun id =>
    (expectLit jsonCloseBrace pm.2).map fun cs4 =>
      (.messageReceived p1.1 p2.1 id, cs4)
  else none

/-- Models `serde_json::from_str::<Event>` on the canonical field order the
serde serializer emits (the only shape `Event::to_log` ever produces):
`standard`, `version`, the adjacently tagged `event` discriminant and its
`data` payload, with account ids and the base-58 `message_id` validated as
the serde impls do, and no input allowed to remain. -/
def eventFromJson (cs : List Char) : Option Event :=
  (expectLit jsonKeyStandard cs).bind fun cs1 =>
  (parseJString cs1).bind fun ps =>
  (expectLit jsonKeyVersion ps.2).bind fun cs2 =>
  (parseJString cs2).bind fun pv =>
  (expectLit jsonKeyEvent pv.2).bind fun cs3 =>
  (parseJString cs3).bind fun pt =>
  (expectLit jsonKeyData pt.2).bind fun cs4 =>
  (parseDataFor pt.1 cs4).bind fun pk =>
  (expectLit jsonCloseBrace pk.2).bind fun cs5 =>
  if cs5 = [] then some ⟨ps.1, pv.1, pk.1⟩ else none

/-- Models `parse_event` (`receipt_handler.rs`): strip the `EVENT_JSON:`
sentinel prefix and deserialize the remainder as an `Event`. -/
def parse_event (log : String) : Option Event :=
  (stripPref eventJsonPrefixLit log.data).bind eventFromJson

/-! ## Ledger data (`near_primitives::views`, reduced to the fields the
indexer consumes) -/

/-- A `BlockView`: header hash, parent hash, the chunk hashes, and the
header's chunk inclusion mask (`chunk_mask`). -/
structure BlockView where
  hash : CryptoHash
  prev_hash : CryptoHash
  chunks : List CryptoHash
  chunk_mask : List Bool
  deriving DecidableEq

/-- Receipt kind (`ReceiptEnumView`): `Action` or `Data`. -/
inductive ReceiptKind where
  | action
  | data
  deriving DecidableEq

/-- A `ReceiptView`: id, receiver account, and kind. -/
structure ReceiptView where
  receipt_id : CryptoHash
  receiver_id : List Char
  kind : ReceiptKind
  deriving DecidableEq

/-- A `ChunkView`: its hash and its receipts. -/
structure ChunkView where
  chunk_hash : CryptoHash
  receipts : List ReceiptView
  deriving DecidableEq

/-! ## Messages (`tooling/indexer/src/types.rs`; the `worker_id` bookkeeping
of `ManagerMessage` is omitted) -/

/-- `ManagerMessageKind`. -/
inductive ManagerMessageKind where
  | newBlock (block : BlockView) (next_block_hash : CryptoHash)
  | newChunk (chunk : ChunkView) (next_block_hash : CryptoHash)
  | shutdown
  deriving DecidableEq

/-- `ChunkDownloaderMessage`. -/
inductive ChunkDownloaderMessage where
  | download (chunk_hash next_block_hash : CryptoHash)
  | shutdown
  deriving DecidableEq

/-- `ReceiptHandlerMessage`. -/
inductive ReceiptHandlerMessage where
  | handle (receipt : ReceiptView) (next_block_hash : CryptoHash)
  | shutdown
  deriving DecidableEq

/-- The block carried by a `NewBlock` message, if any. -/
def carriedBlock : ManagerMessageKind → Option BlockView
  | .newBlock b _ => some b
  | _ => none

/-! ## Block polling (`tooling/indexer/src/block_downloader.rs`) -/

/-- The loop of `download_block_chain` with explicit fuel: follow `prev_hash`
links via the RPC oracle `fetch` until the parent hash of the block fetched
last equals `target`; `acc` holds the blocks already walked past (each newer
than `cur`, oldest first), so the returned list is the Rust function's
collected-then-reversed chain, oldest first. `none` models an RPC error or
exhausted fuel. -/
def downloadChainGo (fetch : CryptoHash → Option BlockView) (target : CryptoHash) :
    Nat → BlockView → List BlockView → Option (List BlockView)
  | 0, cur, acc => if cur.prev_hash = target then some (cur :: acc) else none
  | fuel + 1, cur, acc =>
    if cur.prev_hash = target then some (cur :: acc)
    else
      match fetch cur.prev_hash with
      | none => none
      | some b => downloadChainGo fetch target fuel b (cur :: acc)

/-- Models `download_block_chain`: walk parent links from `current` until the
parent hash equals `target_parent`, returning the chain oldest-first. -/
def download_block_chain (fetch : CryptoHash → Option BlockView) (fuel : Nat)
    (current : BlockView) (target_parent : CryptoHash) :
    Option (List BlockView) :=
  downloadChainGo fetch target_parent fuel current []

/-- The send loop of `BlockDownloader::start` over a downloaded chain, when
every mailbox send succeeds: for each downloaded block, emit the current
`last_seen_block` as the carried block with the downloaded block's hash as
`next_block_hash`, then advance `last_seen_block` to the downloaded block.
Returns the messages in order and the final `last_seen_block`. -/
def emitBlocks : BlockView → List BlockView → List ManagerMessageKind × BlockView
  | lastSeen, [] => ([], lastSeen)
  | lastSeen, b :: rest =>
    let p := emitBlocks b rest
    (ManagerMessageKind.newBlock lastSeen b.hash :: p.1, p.2)

/-- The same send loop with explicit mailbox send results: `sendOk i` says
whether the `i`-th send succeeds. On a failed `NewBlock` send the actor
stops and returns its own error (`return Err(e)`). Returns the attempted
messages and whether the actor failed. -/
def emitBlocksSends (sendOk : Nat → Bool) :
    Nat → BlockView → List BlockView → List ManagerMessageKind × Bool
  | _, _, [] => ([], false)
  | i, lastSeen, b :: rest =>
    if sendOk i then
      let p := emitBlocksSends sendOk (i + 1) b rest
      (ManagerMessageKind.newBlock lastSeen b.hash :: p.1, p.2)
    else ([ManagerMessageKind.newBlock lastSeen b.hash], true)

/-- Mutable state of the `BlockDownloader` actor. -/
structure PollerState where
  last_seen_block : BlockView
  retry_count : Nat
  deriving DecidableEq

/-- Result of one polling cycle of `BlockDownloader::start` (the timeout arm
of the shutdown race: a timer tick with no shutdown signal). -/
inductive CycleResult where
  | quiet (st : PollerState)
  | progressed (msgs : List ManagerMessageKind) (st : PollerState)
  | softFail (st : PollerState)
  | fatal (msgs : List ManagerMessageKind)
  deriving DecidableEq

/-- One polling cycle of `BlockDownloader::start`: fetch the latest block
(`latest`; `none` models an RPC failure); if its hash equals the last seen
hash, do nothing; otherwise download the gap chain and emit the messages
(resetting the failure counter); on any failure increment the counter and,
at the cap, send `Shutdown` and return the fatal error. -/
def pollerCycle (latest : Option BlockView)
    (fetch : CryptoHash → Option BlockView) (fuel maxRetry : Nat)
    (st : PollerState) : CycleResult :=
  match latest with
  | none =>
    if st.retry_count + 1 ≥ maxRetry then .fatal [.shutdown]
    else .softFail ⟨st.last_seen_block, st.retry_count + 1⟩
  | some b =>
    if b.hash = st.last_seen_block.hash then .quiet st
    else
      match download_block_chain fetch fuel b st.last_seen_block.hash with
      | none =>
        if st.retry_count + 1 ≥ maxRetry then .fatal [.shutdown]
        else .softFail ⟨st.last_seen_block, st.retry_count + 1⟩
      | some blocks =>
        let p := emitBlocks st.last_seen_block blocks
        .progressed p.1 ⟨p.2, 0⟩

/-- Trace of a multi-tick run of `BlockDownloader::start`: the number of
polling cycles executed (one `get_latest_block` attempt each), the failure
counter after every failing cycle, all messages sent, and whether the run
ended in the fatal branch. -/
structure PollerRunOut where
  attempts : Nat
  counters : List Nat
  msgs : List ManagerMessageKind
  fatalStop : Bool
  deriving DecidableEq

/-- The tick loop of `BlockDownloader::start` over at most `ticks` timer
ticks with no shutdown signal delivered: run cycles (the latest-block oracle
is indexed by tick number), stopping early in the fatal branch. -/
def pollerRun (latestAt : Nat → Option BlockView)
    (fetch : CryptoHash → Option BlockView) (fuel maxRetry : Nat) :
    Nat → Nat → PollerState → PollerRunOut
  | 0, _, _ => ⟨0, [], [], false⟩
  | ticks + 1, tick, st =>
    match pollerCycle (latestAt tick) fetch fuel maxRetry st with
    | .quiet st1 =>
      let r := pollerRun latestAt fetch fuel maxRetry ticks (tick + 1) st1
      ⟨r.attempts + 1, r.counters, r.msgs, r.fatalStop⟩
    | .progressed ms st1 =>
      let r := pollerRun latestAt fetch fuel maxRetry ticks (tick + 1) st1
      ⟨r.attempts + 1, r.counters, ms ++ r.msgs, r.fatalStop⟩
    | .softFail st1 =>
      let r := pollerRun latestAt fetch fuel maxRetry ticks (tick + 1) st1
      ⟨r.attempts + 1, st1.retry_count :: r.counters, r.msgs, r.fatalStop⟩
    | .fatal ms => ⟨1, [st.retry_count + 1], ms, true⟩

/-! ## Router (`tooling/indexer/src/manager.rs`) -/

/-- The `NewBlock` arm of `Manager::start`: walk the zip of the block's chunk
hashes with the header's inclusion mask; for every included chunk dispatch a
`Download` to the next pool worker of the cyclic iterator (`workers` are the
pool channels, `start` the rotation position; the model requires a nonempty
pool, where the Rust code would panic on `unwrap`). Sends are fire-and-forget
(`.ok()`), so the dispatch list does not depend on send results. Returns the
dispatches paired with their target workers, and the new rotation
position. -/
def dispatchChunks (workers : List Nat) (next : CryptoHash) :
    Nat → List (CryptoHash × Bool) → List (Nat × ChunkDownloaderMessage) × Nat
  | start, [] => ([], start)
  | start, (h, included) :: rest =>
    if included then
      let p := dispatchChunks workers next (start + 1) rest
      ((workers.getD (start % workers.length) 0,
        ChunkDownloaderMessage.download h next) :: p.1, p.2)
    else dispatchChunks workers next start rest

/-- `NewBlock` routing of a whole block. -/
def routeNewBlock (workers : List Nat) (start : Nat) (block : BlockView)
    (next : CryptoHash) : List (Nat × ChunkDownloaderMessage) × Nat :=
  dispatchChunks workers next start (block.chunks.zip block.chunk_mask)

/-- The `NewChunk` arm of `Manager::start`: dispatch `Handle` to the receipt
handler for every receipt of the chunk, with no filtering,
fire-and-forget. -/
def routeNewChunk (chunk : ChunkView) (next : CryptoHash) :
    List ReceiptHandlerMessage :=
  chunk.receipts.map fun r => .handle r next

/-- The `NewChunk` arm with explicit mailbox send results: each attempted
send is paired with its success flag, which the Router discards (`.ok()`),
continuing through the whole receipt list whatever the results are. -/
def routeNewChunkSends (sendOk : ReceiptHandlerMessage → Bool)
    (chunk : ChunkView) (next : CryptoHash) :
    List (ReceiptHandlerMessage × Bool) :=
  chunk.receipts.map fun r => (.handle r next, sendOk (.handle r next))

/-! ## Chunk download (`tooling/indexer/src/chunk_downloader.rs`) -/

/-- One `Download` message handled by `ChunkDownloader::start`: `fetched` is
the result of `download_chunk_with_retry` (`none` = retries exhausted),
`sendOk` whether the `NewChunk` send to the Manager succeeds. Returns the
attempted Manager messages and whether the actor returns `Err`: a failed
`NewChunk` send is the actor's own failure (`return Err(e)`), while the
`Shutdown` send after exhausted retries is `.ok()`-ignored and the actor
fails because of the download, not the send. -/
def chunkDownloadStep (fetched : Option ChunkView) (next : CryptoHash)
    (sendOk : Bool) : List ManagerMessageKind × Bool :=
  match fetched with
  | some chunk => ([.newChunk chunk next], !sendOk)
  | none => ([.shutdown], true)

/-! ## Receipt handling (`tooling/indexer/src/receipt_handler.rs`) -/

/-- An execution outcome (`ExecutionOutcomeWithIdView`), reduced to its log
lines. -/
structure ExecutionOutcome where
  logs : List String
  deriving DecidableEq

/-- One scripted RPC response to the light-client outcome query. -/
inductive RpcResult where
  | ok (outcome : ExecutionOutcome)
  | internalErr (info : Option String)
  | otherErr
  deriving DecidableEq

/-- The marker substring of the ahead-of-head condition checked by
`download_outcome`. -/
def aheadMarker : List Char := "is ahead of head block".data

/-- The suggested re-query hash of a response, when it is the ahead-of-head
condition `download_outcome` retries on: an internal error with `Some` info
text that contains the marker and from which a block hash parses. -/
def aheadHash : RpcResult → Option CryptoHash
  | .internalErr (some msg) =>
    if containsSub msg.data aheadMarker then
      try_parse_block_hash_from_err_message msg
    else none
  | _ => none

/-- Result of one `download_outcome` call. -/
inductive DlStatus where
  | got (outcome : ExecutionOutcome)
  | failed
  | outOfScript
  deriving DecidableEq

/-- Trace of one `download_outcome` call: every hash queried in order, the
number of scripted responses consumed, and the result. -/
structure DlTrace where
  queries : List CryptoHash
  used : Nat
  status : DlStatus
  deriving DecidableEq

/-- Models the `loop` of `download_outcome`: issue the light-client query for
the current hash, consuming the next scripted response; on the ahead-of-head
condition with a parsable suggested hash, immediately loop with exactly that
hash (no sleeping); return the outcome on success and an error on any other
failure. `outOfScript` is the model artifact of running out of scripted
responses. -/
def download_outcome : List RpcResult → CryptoHash → DlTrace
  | [], h => ⟨[h], 0, .outOfScript⟩
  | r :: rest, h =>
    match aheadHash r with
    | some h2 =>
      let t := download_outcome rest h2
      ⟨h :: t.queries, t.used + 1, t.status⟩
    | none =>
      match r with
      | .ok outcome => ⟨[h], 1, .got outcome⟩
      | _ => ⟨[h], 1, .failed⟩

/-- Trace of `download_outcome_with_retry`: all queries, the number of
`download_outcome` calls (outer attempts), the number of inter-retry sleeps,
and the final result. -/
structure RetryTrace where
  queries : List CryptoHash
  attempts : Nat
  sleeps : Nat
  result : DlStatus
  deriving DecidableEq

/-- Models `download_outcome_with_retry`: up to `maxRetries` calls of
`download_outcome`, each starting from the same `block_hash`, sleeping the
retry interval after every failed call; exhausting the loop is an error. -/
def download_outcome_with_retry (script : List RpcResult) (h : CryptoHash) :
    Nat → RetryTrace
  | 0 => ⟨[], 0, 0, .failed⟩
  | n + 1 =>
    let t := download_outcome script h
    match t.status with
    | .got outcome => ⟨t.queries, 1, 0, .got outcome⟩
    | .outOfScript => ⟨t.queries, 1, 0, .outOfScript⟩
    | .failed =>
      let r := download_outcome_with_retry (script.drop t.used) h n
      ⟨t.queries ++ r.queries, r.attempts + 1, r.sleeps + 1, r.result⟩

/-- The event-write loop of `ReceiptHandler::start`: append the events in
order (`writeOk i` is whether the `i`-th `write_event` call succeeds,
covering both the open and the write), stopping at the first failure.
Returns the chunks appended to the log and whether a write failed. -/
def writeEvents (writeOk : Nat → Bool) :
    Nat → List Event → List (List Char) × Bool
  | _, [] => ([], false)
  | i, e :: rest =>
    if writeOk i then
      let p := writeEvents writeOk (i + 1) rest
      (writeEventChunk e :: p.1, p.2)
    else ([], true)

/-- Observable outcome of handling one `Handle` message. -/
structure HandleOutcome where
  queries : List CryptoHash
  written : List (List Char)
  msgs : List ManagerMessageKind
  isErr : Bool
  deriving DecidableEq

/-- The `Handle` arm of `ReceiptHandler::start` for one receipt: receipts
whose receiver differs from the target account, and `Data` receipts, are
skipped with no outcome query, no write and no message; otherwise the
outcome is downloaded with retry; on success the outcome's logs are filtered
through `parse_event` (silently skipping non-matching lines) and each event
appended to the log, and a write failure emits `Shutdown` to the Manager and
returns `Err`; a download failure also emits `Shutdown` and returns
`Err`. -/
def handleReceipt (script : List RpcResult) (writeOk : Nat → Bool)
    (target : List Char) (maxRetries : Nat) (receipt : ReceiptView)
    (next_block_hash : CryptoHash) : HandleOutcome :=
  if receipt.receiver_id ≠ target then ⟨[], [], [], false⟩
  else if receipt.kind = .data then ⟨[], [], [], false⟩
  else
    let t := download_outcome_with_retry script next_block_hash maxRetries
    match t.result with
    | .got outcome =>
      let events := outcome.logs.filterMap parse_event
      let w := writeEvents writeOk 0 events
      if w.2 then ⟨t.queries, w.1, [.shutdown], true⟩
      else ⟨t.queries, w.1, [], false⟩
    | _ => ⟨t.queries, [], [.shutdown], true⟩

/-! Example values used in concrete witnesses and counterexamples. -/

/-- The base-58 rendering of the all-zero 32-byte hash: 32 `1` characters. -/
def zeroHashB58 : List Char := "11111111111111111111111111111111".data

/-- An RPC error text embedding `block <hash>` in its middle rather than at
its start. -/
def embeddedBlockMsg : String :=
  "The node is behind: block 11111111111111111111111111111111 is ahead of head block"

/-- An error text starting with `block <hash>` and mentioning the
ahead-of-head condition, as the RPC formats it. -/
def leadingBlockMsg : String :=
  "block 11111111111111111111111111111111 is ahead of head block"

def exAlice : List Char := "alice.near".data

def exBob : List Char := "bob.near".data

def exStandard : List Char := "NearMessenger".data

def exVersion : List Char := "1.0.0".data

def exMsgId : List Nat := List.replicate 32 0

/-- A concrete `message_sent` event. -/
def exEventMS : Event := ⟨exStandard, exVersion, .messageSent exAlice exBob⟩

/-- A concrete `message_received` event carrying a message id. -/
def exEventMR : Event :=
  ⟨exStandard, exVersion, .messageReceived exAlice exBob exMsgId⟩

/-- A `Data`-kind receipt addressed to the target account. -/
def exReceiptData : ReceiptView := ⟨[7], exAlice, .data⟩

/-- An `Action`-kind receipt addressed to the target account. -/
def exReceiptAction : ReceiptView := ⟨[7], exAlice, .action⟩

/-- A chunk holding one `Data` receipt. -/
def exChunkData : ChunkView := ⟨[8], [exReceiptData]⟩

/-- The last-seen block of the block-poller counterexample. -/
def cexL : BlockView := ⟨[1], [0], [], []⟩

/-- The middle block: its parent is `cexL`. -/
def cexA : BlockView := ⟨[2], [1], [], []⟩

/-- The latest block: its parent is `cexA`. -/
def cexB : BlockView := ⟨[3], [2], [], []⟩

/-- A block-fetch oracle serving exactly the gap block `cexA`. -/
def cexFetch : CryptoHash → Option BlockView :=
  fun h => if h = [2] then some cexA else none

/-- An execution outcome whose single log line is a sentinel event line. -/
def exOutcome : ExecutionOutcome := ⟨[exEventMS.to_log]⟩

/-- A scripted ahead-of-head RPC response suggesting the all-zero hash. -/
def exAheadResponse : RpcResult := .internalErr (some leadingBlockMsg)

/-- A block with six included chunks for the round-robin witness. -/
def c7Block : BlockView :=
  ⟨[30], [29], [[10], [11], [12], [13], [14], [15]],
    [true, true, true, true, true, true]⟩

/-! ## Theorems and supporting lemmas -/

theorem digitsLE_eq_digits {b : Nat} (hb : 1 < b) :
    ∀ fuel n, n < b ^ fuel → digitsLE b fuel n = Nat.digits b n := by
  intro fuel
  induction fuel with
  | zero =>
      intro n hn
      simp only [pow_zero, Nat.lt_one_iff] at hn
      subst hn
      simp [digitsLE]
  | succ fuel ih =>
      intro n hn
      by_cases h0 : n = 0
      · subst h0; simp [digitsLE]
      · rw [digitsLE, if_neg h0, Nat.digits_def' hb (Nat.pos_of_ne_zero h0)]
        congr 1
        apply ih
        rw [Nat.div_lt_iff_lt_mul (Nat.lt_of_lt_of_le Nat.zero_lt_one hb.le)]
        calc n < b ^ (fuel + 1) := hn
        _ = b ^ fuel * b := by ring

theorem foldr_eq_ofDigits (b : Nat) :
    ∀ l : List Nat, l.foldr (fun d acc => acc * b + d) 0 = Nat.ofDigits b l := by
  intro l
  induction l with
  | nil => simp [Nat.ofDigits]
  | cons d ds ih =>
      simp only [List.foldr_cons, ih, Nat.ofDigits_cons, Nat.cast_id]
      ring

theorem foldDigits_eq_ofDigits (b : Nat) (l : List Nat) :
    foldDigits b l = Nat.ofDigits b l.reverse := by
  have h := List.foldl_reverse (l := l.reverse)
    (f := fun acc d => acc * b + d) (b := 0)
  rw [List.reverse_reverse] at h
  rw [foldDigits, h, foldr_eq_ofDigits]

theorem foldl_replicate_zero (b z : Nat) :
    List.foldl (fun acc d => acc * b + d) 0 (List.replicate z 0) = 0 := by
  induction z with
  | zero => rfl
  | succ z ih => simpa [List.replicate_succ] using ih

theorem foldDigits_replicate_zero (b : Nat) (z : Nat) (l : List Nat) :
    foldDigits b (List.replicate z 0 ++ l) = foldDigits b l := by
  rw [foldDigits, List.foldl_append, foldl_replicate_zero]
  rfl

theorem foldDigits_lt_aux (b : Nat) :
    ∀ l : List Nat, (∀ d ∈ l, d < b) →
      ∀ acc, List.foldl (fun acc d => acc * b + d) acc l < (acc + 1) * b ^ l.length := by
  intro l
  induction l with
  | nil => intro _ acc; simpa using Nat.lt_succ_self acc
  | cons d ds ih =>
      intro hd acc
      have hmem : ∀ x ∈ ds, x < b := fun x hx => hd x (List.mem_cons_of_mem _ hx)
      have := ih hmem (acc * b + d)
      calc List.foldl (fun acc d => acc * b + d) (acc * b + d) ds
          < (acc * b + d + 1) * b ^ ds.length := this
        _ ≤ ((acc + 1) * b) * b ^ ds.length := by
            have : acc * b + d + 1 ≤ (acc + 1) * b := by
              have hdb : d + 1 ≤ b := hd d (List.mem_cons_self d ds)
              calc acc * b + d + 1 = acc * b + (d + 1) := by ring
                _ ≤ acc * b + b := by omega
                _ = (acc + 1) * b := by ring
            exact Nat.mul_le_mul_right _ this
        _ = (acc + 1) * b ^ (d :: ds).length := by
            simp [pow_succ]; ring

theorem foldDigits_lt (b : Nat) (l : List Nat)
    (h : ∀ d ∈ l, d < b) : foldDigits b l < b ^ l.length := by
  have := foldDigits_lt_aux b l h 0
  simpa [foldDigits] using this

theorem b58Val_b58Char : ∀ d < 58, b58Val (b58Char d) = some d := by decide

theorem b58Char_ne_one : ∀ d < 58, d ≠ 0 → b58Char d ≠ '1' := by decide

theorem b58Vals_append (l₁ l₂ : List Char) (d₁ d₂ : List Nat)
    (h₁ : b58Vals l₁ = some d₁) (h₂ : b58Vals l₂ = some d₂) :
    b58Vals (l₁ ++ l₂) = some (d₁ ++ d₂) := by
  induction l₁ generalizing d₁ with
  | nil =>
      simp only [b58Vals] at h₁
      cases h₁
      simpa using h₂
  | cons c cs ih =>
      simp only [b58Vals] at h₁
      rcases hc : b58Val c with _ | d
      · rw [hc] at h₁; simp at h₁
      · rw [hc] at h₁
        rcases hcs : b58Vals cs with _ | ds
        · rw [hcs] at h₁; simp at h₁
        · rw [hcs] at h₁
          simp only [Option.some.injEq] at h₁
          subst h₁
          rw [List.cons_append]
          simp only [b58Vals, List.append_eq]
          rw [hc, ih ds hcs]
          simp

theorem b58Vals_replicate_one (z : Nat) :
    b58Vals (List.replicate z '1') = some (List.replicate z 0) := by
  induction z with
  | zero => simp [b58Vals]
  | succ z ih =>
      rw [List.replicate_succ, b58Vals, ih]
      have h1 : b58Val '1' = some 0 := by decide
      rw [h1]
      simp [List.replicate_succ]

theorem b58Vals_map_b58Char (ds : List Nat) (h : ∀ d ∈ ds, d < 58) :
    b58Vals (ds.map b58Char) = some ds := by
  induction ds with
  | nil => simp [b58Vals]
  | cons d ds ih =>
      rw [List.map_cons, b58Vals, b58Val_b58Char d (h d (List.mem_cons_self d ds)),
        ih (fun x hx => h x (List.mem_cons_of_mem _ hx))]

theorem takeWhile_replicate_append (p : Char → Bool) (a : Char) (hp : p a = true)
    (l : List Char) (hl : l.head? = none ∨ ∃ c, l.head? = some c ∧ p c = false) :
    ∀ z, (List.replicate z a ++ l).takeWhile p = List.replicate z a := by
  intro z
  induction z with
  | zero =>
      rcases hl with h | ⟨c, hc, hpc⟩
      · rcases l with _ | ⟨x, xs⟩
        · simp
        · simp at h
      · rcases l with _ | ⟨x, xs⟩
        · simp at hc
        · simp only [List.head?_cons, Option.some.injEq] at hc
          subst hc
          simp [List.takeWhile_cons, hpc]
  | succ z ih =>
      rw [List.replicate_succ, List.cons_append, List.takeWhile_cons, hp, ih]
      simp

theorem digitsLE_zero (b fuel : Nat) : digitsLE b fuel 0 = [] := by
  cases fuel <;> simp [digitsLE]

theorem dropWhile_cases {α : Type} (p : α → Bool) (l : List α) :
    l.dropWhile p = [] ∨ ∃ c cs, l.dropWhile p = c :: cs ∧ p c = false := by
  induction l with
  | nil => left; rfl
  | cons x xs ih =>
      by_cases hx : p x
      · rw [List.dropWhile_cons, if_pos hx]; exact ih
      · right
        exact ⟨x, xs, by rw [List.dropWhile_cons, if_neg hx], Bool.of_not_eq_true hx⟩

theorem takeWhile_eq_replicate_zero (l : List Nat) :
    l.takeWhile (· == 0) = List.replicate (l.takeWhile (· == 0)).length 0 := by
  rw [List.eq_replicate_iff]
  refine ⟨rfl, fun b hb => ?_⟩
  have := List.mem_takeWhile_imp hb
  simpa using this

/-- Decoding inverts encoding on byte strings: the observable round trip of
the `bs58` crate used for `CryptoHash` and `MessageId` rendering. -/
theorem b58Decode_b58Encode (bytes : List Nat) (hbytes : ∀ x ∈ bytes, x < 256) :
    b58Decode (b58Encode bytes) = some bytes := by
  have h256 : (1 : Nat) < 256 := by norm_num
  set z := (bytes.takeWhile (· == 0)).length with hz
  set rest := bytes.dropWhile (· == 0) with hrest
  have hsplit : List.replicate z 0 ++ rest = bytes := by
    rw [hz, hrest, ← takeWhile_eq_replicate_zero, List.takeWhile_append_dropWhile]
  have hfold : foldDigits 256 bytes = foldDigits 256 rest := by
    rw [← hsplit, foldDigits_replicate_zero]
  rcases dropWhile_cases (· == 0) bytes with hnil | ⟨c, cs, hcons, hc⟩
  · -- all bytes are zero: the value is 0 and the encoding is just `1`s
    rw [← hrest] at hnil
    have hbz : bytes = List.replicate z 0 := by rw [← hsplit, hnil, List.append_nil]
    have hn0 : foldDigits 256 bytes = 0 := by
      rw [hfold, hnil]; rfl
    rw [b58Encode, hn0, digitsLE_zero]
    simp only [List.reverse_nil, List.map_nil, List.append_nil, ← hz]
    have ht : (List.replicate z '1').takeWhile (· == '1') = List.replicate z '1' := by
      have := takeWhile_replicate_append (· == '1') '1' (by decide) [] (Or.inl rfl) z
      simpa using this
    have hf0 : foldDigits 58 (List.replicate z 0) = 0 := by
      have := foldDigits_replicate_zero 58 z []
      simpa [foldDigits] using this
    simp only [b58Decode, b58Vals_replicate_one, Option.map_some', ht, hf0,
      digitsLE_zero, List.reverse_nil, List.append_nil, List.length_replicate]
    rw [hbz]
  · -- at least one nonzero byte
    rw [← hrest] at hcons
    have hcne : c ≠ 0 := by simpa using hc
    have hrmem : ∀ x ∈ rest, x < 256 := by
      intro x hx
      exact hbytes x (((List.dropWhile_sublist (· == 0)).subset) hx)
    set n := foldDigits 256 bytes with hn
    have hofd : n = Nat.ofDigits 256 rest.reverse := by
      rw [hfold, foldDigits_eq_ofDigits]
    have hrne : rest ≠ [] := by rw [hcons]; simp
    have hdig : Nat.digits 256 n = rest.reverse := by
      rw [hofd]
      apply Nat.digits_ofDigits 256 h256
      · intro x hx
        exact hrmem x (List.mem_reverse.mp hx)
      · intro h
        have h1 : rest.reverse.getLast? = some c := by
          rw [List.getLast?_reverse, hcons]
          rfl
        rw [List.getLast?_eq_getLast _ h, Option.some.injEq] at h1
        rw [h1]
        exact hcne
    have hne0 : n ≠ 0 := by
      intro h0
      rw [h0] at hdig
      simp only [Nat.digits_zero] at hdig
      exact hrne (by simpa using hdig.symm)
    set d58 := Nat.digits 58 n with hd58
    have h58 : (1 : Nat) < 58 := by norm_num
    have hd58ne : d58 ≠ [] := Nat.digits_ne_nil_iff_ne_zero.mpr hne0
    have hd58lt : ∀ d ∈ d58, d < 58 := fun d hd => Nat.digits_lt_base h58 hd
    have hfuel58 : n < 58 ^ (2 * bytes.length) := by
      calc n < 256 ^ bytes.length := by
              rw [hn]; exact foldDigits_lt 256 bytes hbytes
        _ ≤ (58 ^ 2) ^ bytes.length := Nat.pow_le_pow_left (by norm_num) _
        _ = 58 ^ (2 * bytes.length) := by rw [← pow_mul]
    have hEnc : b58Encode bytes = List.replicate z '1' ++ d58.reverse.map b58Char := by
      rw [b58Encode, ← hz, ← hn, digitsLE_eq_digits h58 (2 * bytes.length) n hfuel58,
        ← hd58]
    set E := d58.reverse.map b58Char with hE
    have hEhead : ∃ e, E.head? = some e ∧ (e == '1') = false := by
      refine ⟨b58Char (d58.getLast hd58ne), ?_, ?_⟩
      · rw [hE, List.head?_map, List.head?_reverse, List.getLast?_eq_getLast d58 hd58ne]
        rfl
      · have hlt : d58.getLast hd58ne < 58 := hd58lt _ (List.getLast_mem hd58ne)
        have hnz : d58.getLast hd58ne ≠ 0 := Nat.getLast_digit_ne_zero 58 hne0
        simpa using b58Char_ne_one _ hlt hnz
    have hvals : b58Vals (List.replicate z '1' ++ E) =
        some (List.replicate z 0 ++ d58.reverse) := by
      apply b58Vals_append
      · exact b58Vals_replicate_one z
      · rw [hE]
        apply b58Vals_map_b58Char
        intro d hd
        exact hd58lt d (List.mem_reverse.mp hd)
    have htake : (List.replicate z '1' ++ E).takeWhile (· == '1') =
        List.replicate z '1' := by
      apply takeWhile_replicate_append (· == '1') '1' (by decide)
      rcases hEhead with ⟨e, he, hne⟩
      exact Or.inr ⟨e, he, hne⟩
    have hfoldE : foldDigits 58 (List.replicate z 0 ++ d58.reverse) = n := by
      rw [foldDigits_replicate_zero, foldDigits_eq_ofDigits, List.reverse_reverse,
        hd58, Nat.ofDigits_digits]
    have hfuel256 : n < 256 ^ (List.replicate z '1' ++ E).length := by
      have h1 : n < 58 ^ d58.length := by
        rw [hd58]; exact Nat.lt_base_pow_length_digits h58
      have h2 : d58.length ≤ (List.replicate z '1' ++ E).length := by
        rw [List.length_append, hE, List.length_map, List.length_reverse]
        omega
      calc n < 58 ^ d58.length := h1
        _ ≤ 256 ^ d58.length := Nat.pow_le_pow_left (by norm_num) _
        _ ≤ 256 ^ (List.replicate z '1' ++ E).length :=
            Nat.pow_le_pow_right (by norm_num) h2
    rw [hEnc]
    simp only [b58Decode, hvals, Option.map_some', htake, List.length_replicate]
    rw [hfoldE, digitsLE_eq_digits h256 _ n hfuel256, hdig, List.reverse_reverse,
      hsplit]

theorem stripPref_append (p rest : List Char) :
    stripPref p (p ++ rest) = some rest := by
  rw [stripPref, if_pos, List.drop_left]
  exact List.isPrefixOf_iff_prefix.mpr ⟨rest, rfl⟩

theorem stripPref_eq_some (p s rest : List Char) :
    stripPref p s = some rest ↔ s = p ++ rest := by
  constructor
  · intro h
    rw [stripPref] at h
    by_cases hp : p.isPrefixOf s
    · rw [if_pos hp] at h
      obtain ⟨t, ht⟩ := List.isPrefixOf_iff_prefix.mp hp
      simp only [Option.some.injEq] at h
      rw [← ht, List.drop_left] at h
      rw [← ht, h]
    · rw [if_neg hp] at h
      exact absurd h (by simp)
  · intro h
    rw [h]
    exact stripPref_append p rest

/-! Round trip of serde_json string escaping. -/

theorem parseHex_hexDig : ∀ n < 16, parseHex (hexDig n) = some n := by decide

theorem psb_quote (rest : List Char) : parseStrBody ('"' :: rest) = some ([], rest) := by
  rw [parseStrBody.eq_def]
  simp

theorem psb_escQuote (rest : List Char) : parseStrBody ('\\' :: '"' :: rest) =
    (parseStrBody rest).map fun p => ('"' :: p.1, p.2) := by
  rw [parseStrBody.eq_def]
  simp

theorem psb_escBack (rest : List Char) : parseStrBody ('\\' :: '\\' :: rest) =
    (parseStrBody rest).map fun p => ('\\' :: p.1, p.2) := by
  rw [parseStrBody.eq_def]
  simp

theorem psb_escB (rest : List Char) : parseStrBody ('\\' :: 'b' :: rest) =
    (parseStrBody rest).map fun p => ('\x08' :: p.1, p.2) := by
  rw [parseStrBody.eq_def]
  simp

theorem psb_escT (rest : List Char) : parseStrBody ('\\' :: 't' :: rest) =
    (parseStrBody rest).map fun p => ('\t' :: p.1, p.2) := by
  rw [parseStrBody.eq_def]
  simp

theorem psb_escN (rest : List Char) : parseStrBody ('\\' :: 'n' :: rest) =
    (parseStrBody rest).map fun p => ('\n' :: p.1, p.2) := by
  rw [parseStrBody.eq_def]
  simp

theorem psb_escF (rest : List Char) : parseStrBody ('\\' :: 'f' :: rest) =
    (parseStrBody rest).map fun p => ('\x0c' :: p.1, p.2) := by
  rw [parseStrBody.eq_def]
  simp

theorem psb_escR (rest : List Char) : parseStrBody ('\\' :: 'r' :: rest) =
    (parseStrBody rest).map fun p => ('\r' :: p.1, p.2) := by
  rw [parseStrBody.eq_def]
  simp

theorem psb_escU (d1 d2 : Char) (v3 v4 : Nat) (rest : List Char)
    (hd1 : parseHex d1 = some v3) (hd2 : parseHex d2 = some v4) :
    parseStrBody ('\\' :: 'u' :: '0' :: '0' :: d1 :: d2 :: rest) =
    (parseStrBody rest).map fun p =>
      (Char.ofNat (((0 * 16 + 0) * 16 + v3) * 16 + v4) :: p.1, p.2) := by
  have h00 : parseHex '0' = some 0 := by decide
  rw [parseStrBody.eq_def]
  simp [h00, hd1, hd2]

theorem psb_raw (c : Char) (rest : List Char) (hq : ¬ c = '"') (hb : ¬ c = '\\') :
    parseStrBody (c :: rest) = (parseStrBody rest).map fun p => (c :: p.1, p.2) := by
  rw [parseStrBody.eq_def]
  simp only [if_neg hq, if_neg hb]

theorem parseStrBody_escStr :
    ∀ s rest, parseStrBody (escStr s ++ '"' :: rest) = some (s, rest) := by
  intro s
  induction s with
  | nil => intro rest; rw [escStr, List.nil_append, psb_quote]
  | cons c cs ih =>
      intro rest
      rw [escStr, List.append_assoc]
      by_cases hq : c = '"'
      · subst hq
        have he : escChar '"' = ['\\', '"'] := by decide
        rw [he]
        simp only [List.cons_append, List.nil_append, psb_escQuote, ih rest,
          Option.map_some']
      · by_cases hb : c = '\\'
        · subst hb
          have he : escChar '\\' = ['\\', '\\'] := by decide
          rw [he]
          simp only [List.cons_append, List.nil_append, psb_escBack, ih rest,
            Option.map_some']
        · by_cases hc : c.toNat < 32
          · by_cases h8 : c = '\x08'
            · subst h8
              have he : escChar '\x08' = ['\\', 'b'] := by decide
              rw [he]
              simp only [List.cons_append, List.nil_append, psb_escB, ih rest,
                Option.map_some']
            · by_cases ht : c = '\t'
              · subst ht
                have he : escChar '\t' = ['\\', 't'] := by decide
                rw [he]
                simp only [List.cons_append, List.nil_append, psb_escT, ih rest,
                  Option.map_some']
              · by_cases hn : c = '\n'
                · subst hn
                  have he : escChar '\n' = ['\\', 'n'] := by decide
                  rw [he]
                  simp only [List.cons_append, List.nil_append, psb_escN, ih rest,
                    Option.map_some']
                · by_cases hf : c = '\x0c'
                  · subst hf
                    have he : escChar '\x0c' = ['\\', 'f'] := by decide
                    rw [he]
                    simp only [List.cons_append, List.nil_append, psb_escF,
                      ih rest, Option.map_some']
                  · by_cases hr : c = '\r'
                    · subst hr
                      have he : escChar '\r' = ['\\', 'r'] := by decide
                      rw [he]
                      simp only [List.cons_append, List.nil_append, psb_escR,
                        ih rest, Option.map_some']
                    · have hd1 : parseHex (hexDig (c.toNat / 16)) =
                          some (c.toNat / 16) :=
                        parseHex_hexDig _ (Nat.div_lt_of_lt_mul (by omega))
                      have hd2 : parseHex (hexDig (c.toNat % 16)) =
                          some (c.toNat % 16) :=
                        parseHex_hexDig _ (Nat.mod_lt _ (by norm_num))
                      have he : escChar c = ['\\', 'u', '0', '0',
                          hexDig (c.toNat / 16), hexDig (c.toNat % 16)] := by
                        rw [escChar, if_neg hq, if_neg hb, if_pos hc, if_neg h8,
                          if_neg ht, if_neg hn, if_neg hf, if_neg hr]
                      have hval : ((0 * 16 + 0) * 16 + c.toNat / 16) * 16 +
                          c.toNat % 16 = c.toNat := by
                        omega
                      rw [he]
                      simp only [List.cons_append, List.nil_append]
                      rw [psb_escU _ _ _ _ _ hd1 hd2, ih rest, Option.map_some',
                        hval, Char.ofNat_toNat]
          · have he : escChar c = [c] := by
              rw [escChar, if_neg hq, if_neg hb, if_neg hc]
            rw [he]
            simp only [List.cons_append, List.nil_append]
            rw [psb_raw c _ hq hb, ih rest, Option.map_some']

theorem parseJString_render (s rest : List Char) :
    parseJString (renderString s ++ rest) = some (s, rest) := by
  rw [renderString]
  simp only [List.cons_append, List.append_assoc, List.singleton_append,
    parseJString, reduceIte]
  exact parseStrBody_escStr s rest

theorem expectLit_append (lit rest : List Char) :
    expectLit lit (lit ++ rest) = some rest := by
  rw [expectLit, if_pos, List.drop_left]
  exact List.isPrefixOf_iff_prefix.mpr ⟨rest, rfl⟩

theorem parseAccount_render (s : List Char) (h : isValidAccountId s = true)
    (rest : List Char) :
    parseAccount (renderString s ++ rest) = some (s, rest) := by
  rw [parseAccount, parseJString_render]
  simp [h]

theorem expectLit_self (lit : List Char) : expectLit lit lit = some [] := by
  simpa using expectLit_append lit []

theorem messageId_roundtrip (id : List Nat) (hlen : id.length = 32)
    (hlt : ∀ b ∈ id, b < 256) :
    messageIdFromString (messageIdToString id) = some id := by
  rw [messageIdToString, messageIdFromString, b58Decode_b58Encode id hlt]
  simp [hlen]

/-! Round trip of the Event serializer and deserializer. -/

theorem parseTwoFieldData_render (k1 k2 a1 a2 : List Char)
    (h1 : isValidAccountId a1 = true) (h2 : isValidAccountId a2 = true)
    (rest : List Char) :
    parseTwoFieldData k1 k2
      (k1 ++ (renderString a1 ++ (k2 ++ (renderString a2 ++
        (jsonCloseBrace ++ rest))))) = some ((a1, a2), rest) := by
  simp only [parseTwoFieldData, expectLit_append, Option.some_bind,
    parseAccount_render a1 h1, parseAccount_render a2 h2, Option.map_some']

theorem parseDataFor_pcr (cs : List Char) :
    parseDataFor tagPCR cs =
      (parseTwoFieldData jsonKeySender jsonKeyReceiver cs).map fun p =>
        (.pendingContactRequest p.1.1 p.1.2, p.2) := by
  rw [parseDataFor, if_pos rfl]

theorem parseDataFor_rcr (cs : List Char) :
    parseDataFor tagRCR cs =
      (parseTwoFieldData jsonKeySender jsonKeyReceiver cs).map fun p =>
        (.receivedContactRequest p.1.1 p.1.2, p.2) := by
  rw [parseDataFor, if_neg (by decide), if_pos rfl]

theorem parseDataFor_nc (cs : List Char) :
    parseDataFor tagNC cs =
      (parseTwoFieldData jsonKeyThis jsonKeyContact cs).map fun p =>
        (.newContact p.1.1 p.1.2, p.2) := by
  rw [parseDataFor, if_neg (by decide), if_neg (by decide), if_pos rfl]

theorem parseDataFor_ms (cs : List Char) :
    parseDataFor tagMS cs =
      (parseTwoFieldData jsonKeySender jsonKeyReceiver cs).map fun p =>
        (.messageSent p.1.1 p.1.2, p.2) := by
  rw [parseDataFor, if_neg (by decide), if_neg (by decide), if_neg (by decide),
    if_pos rfl]

theorem parseDataFor_mr (cs : List Char) :
    parseDataFor tagMR cs =
      (expectLit jsonKeySender cs).bind fun cs1 =>
      (parseAccount cs1).bind fun p1 =>
      (expectLit jsonKeyReceiver p1.2).bind fun cs2 =>
      (parseAccount cs2).bind fun p2 =>
      (expectLit jsonKeyMessageId p2.2).bind fun cs3 =>
      (parseJString cs3).bind fun pm =>
      (messageIdFromString pm.1).bind fun id =>
      (expectLit jsonCloseBrace pm.2).map fun cs4 =>
        (.messageReceived p1.1 p2.1 id, cs4) := by
  rw [parseDataFor, if_neg (by decide), if_neg (by decide), if_neg (by decide),
    if_neg (by decide), if_pos rfl]

theorem eventFromJson_eventToJson (e : Event) (h : wellFormedEvent e = true) :
    eventFromJson (eventToJson e) = some e := by
  obtain ⟨std, ver, kind⟩ := e
  rw [wellFormedEvent] at h
  cases kind with
  | pendingContactRequest s r =>
      simp only [wellFormedKind, Bool.and_eq_true] at h
      obtain ⟨hs, hr⟩ := h
      rw [eventToJson]
      simp only [eventTag, dataJson, List.append_assoc]
      simp only [eventFromJson, expectLit_append, Option.some_bind,
        parseJString_render, parseDataFor_pcr,
        parseTwoFieldData_render jsonKeySender jsonKeyReceiver s r hs hr,
        Option.map_some', Option.some_bind, expectLit_self, reduceIte]
  | receivedContactRequest s r =>
      simp only [wellFormedKind, Bool.and_eq_true] at h
      obtain ⟨hs, hr⟩ := h
      rw [eventToJson]
      simp only [eventTag, dataJson, List.append_assoc]
      simp only [eventFromJson, expectLit_append, Option.some_bind,
        parseJString_render, parseDataFor_rcr,
        parseTwoFieldData_render jsonKeySender jsonKeyReceiver s r hs hr,
        Option.map_some', Option.some_bind, expectLit_self, reduceIte]
  | newContact t c =>
      simp only [wellFormedKind, Bool.and_eq_true] at h
      obtain ⟨ht, hc⟩ := h
      rw [eventToJson]
      simp only [eventTag, dataJson, List.append_assoc]
      simp only [eventFromJson, expectLit_append, Option.some_bind,
        parseJString_render, parseDataFor_nc,
        parseTwoFieldData_render jsonKeyThis jsonKeyContact t c ht hc,
        Option.map_some', Option.some_bind, expectLit_self, reduceIte]
  | messageSent s r =>
      simp only [wellFormedKind, Bool.and_eq_true] at h
      obtain ⟨hs, hr⟩ := h
      rw [eventToJson]
      simp only [eventTag, dataJson, List.append_assoc]
      simp only [eventFromJson, expectLit_append, Option.some_bind,
        parseJString_render, parseDataFor_ms,
        parseTwoFieldData_render jsonKeySender jsonKeyReceiver s r hs hr,
        Option.map_some', Option.some_bind, expectLit_self, reduceIte]
  | messageReceived s r id =>
      simp only [wellFormedKind, Bool.and_eq_true] at h
      obtain ⟨⟨⟨hs, hr⟩, hlen⟩, hbytes⟩ := h
      have hlen' : id.length = 32 := of_decide_eq_true hlen
      have hbytes' : ∀ b ∈ id, b < 256 := by
        intro b hb
        have := List.all_eq_true.mp hbytes b hb
        exact of_decide_eq_true this
      rw [eventToJson]
      simp only [eventTag, dataJson, List.append_assoc]
      simp only [eventFromJson, expectLit_append, Option.some_bind,
        parseJString_render, parseDataFor_mr,
        parseAccount_render s hs, parseAccount_render r hr,
        messageId_roundtrip id hlen' hbytes',
        Option.map_some', Option.some_bind, expectLit_self, reduceIte]

/-- Full round trip through the sentinel log line: `parse_event` inverts
`Event::to_log` on every well-formed event. -/
theorem parse_event_to_log (e : Event) (h : wellFormedEvent e = true) :
    parse_event e.to_log = some e := by
  rw [parse_event, Event.to_log]
  have hdata : (String.mk (eventJsonPrefixLit ++ eventToJson e)).data =
      eventJsonPrefixLit ++ eventToJson e := rfl
  rw [hdata, stripPref_append, Option.some_bind]
  exact eventFromJson_eventToJson e h

/-! Block-poller emission lemmas. -/

theorem emitBlocks_eq (lastSeen : BlockView) (blocks : List BlockView) :
    emitBlocks lastSeen blocks =
      (List.zipWith (fun b nb => ManagerMessageKind.newBlock b nb.hash)
          (lastSeen :: blocks) blocks,
        blocks.getLastD lastSeen) := by
  induction blocks generalizing lastSeen with
  | nil => simp [emitBlocks]
  | cons b rest ih =>
      simp [emitBlocks, ih b, List.getLastD_cons]
      cases rest with
      | nil => simp
      | cons x xs =>
          rw [List.getLast?_cons_cons,
            List.getLast?_eq_getLast (x :: xs) (by simp)]
          simp

theorem downloadChainGo_sound (fetch : CryptoHash → Option BlockView)
    (target : CryptoHash)
    (hfetch : ∀ h b, fetch h = some b → b.hash = h) :
    ∀ fuel (cur : BlockView) (acc blocks : List BlockView),
      List.Chain' (fun x y => y.prev_hash = x.hash) (cur :: acc) →
      downloadChainGo fetch target fuel cur acc = some blocks →
      blocks.head?.map BlockView.prev_hash = some target ∧
        List.Chain' (fun x y => y.prev_hash = x.hash) blocks ∧
        blocks.getLast? = (cur :: acc).getLast? := by
  intro fuel
  induction fuel with
  | zero =>
      intro cur acc blocks hch hdl
      simp only [downloadChainGo] at hdl
      by_cases hstop : cur.prev_hash = target
      · rw [if_pos hstop] at hdl
        cases hdl
        exact ⟨by simp [hstop], hch, rfl⟩
      · rw [if_neg hstop] at hdl
        exact absurd hdl (by simp)
  | succ fuel ih =>
      intro cur acc blocks hch hdl
      simp only [downloadChainGo] at hdl
      by_cases hstop : cur.prev_hash = target
      · rw [if_pos hstop] at hdl
        cases hdl
        exact ⟨by simp [hstop], hch, rfl⟩
      · rw [if_neg hstop] at hdl
        rcases hf : fetch cur.prev_hash with _ | b
        · rw [hf] at hdl
          exact absurd hdl (by simp)
        · rw [hf] at hdl
          have hb : b.hash = cur.prev_hash := hfetch _ _ hf
          have hch2 : List.Chain' (fun x y => y.prev_hash = x.hash)
              (b :: cur :: acc) :=
            List.chain'_cons.mpr ⟨by rw [hb], hch⟩
          have hres := ih b (cur :: acc) blocks hch2 hdl
          refine ⟨hres.1, hres.2.1, ?_⟩
          rw [hres.2.2, List.getLast?_cons_cons]

/-! Round-robin dispatch lemmas. -/

theorem dispatchChunks_cons_true (workers : List Nat) (next h : CryptoHash)
    (start : Nat) (rest : List (CryptoHash × Bool)) :
    dispatchChunks workers next start ((h, true) :: rest) =
      ((workers.getD (start % workers.length) 0,
          ChunkDownloaderMessage.download h next) ::
          (dispatchChunks workers next (start + 1) rest).1,
        (dispatchChunks workers next (start + 1) rest).2) := by
  simp [dispatchChunks]

theorem dispatchChunks_cons_false (workers : List Nat) (next h : CryptoHash)
    (start : Nat) (rest : List (CryptoHash × Bool)) :
    dispatchChunks workers next start ((h, false) :: rest) =
      dispatchChunks workers next start rest := by
  simp [dispatchChunks]

theorem dispatchChunks_spec (workers : List Nat) (next : CryptoHash) :
    ∀ (pairs : List (CryptoHash × Bool)) (start : Nat),
      ((dispatchChunks workers next start pairs).1.map Prod.snd =
          (pairs.filter fun p => p.2).map fun p =>
            ChunkDownloaderMessage.download p.1 next) ∧
        ((dispatchChunks workers next start pairs).1.map Prod.fst =
          (List.range (pairs.filter fun p => p.2).length).map fun i =>
            workers.getD ((start + i) % workers.length) 0) ∧
        (dispatchChunks workers next start pairs).2 =
          start + (pairs.filter fun p => p.2).length := by
  intro pairs
  induction pairs with
  | nil => intro start; simp [dispatchChunks]
  | cons p rest ih =>
      intro start
      obtain ⟨h, inc⟩ := p
      cases inc with
      | false =>
          rw [dispatchChunks_cons_false,
            List.filter_cons_of_neg (by simp)]
          exact ih start
      | true =>
          have hrec := ih (start + 1)
          rw [dispatchChunks_cons_true, List.filter_cons_of_pos (by simp)]
          refine ⟨by simp [hrec.1], ?_, by simp [hrec.2.2]; omega⟩
          simp only [List.map_cons, hrec.2.1, List.length_cons,
            List.range_succ_eq_map, List.map_map]
          congr 1
          apply List.map_congr_left
          intro i _
          simp only [Function.comp_apply]
          congr 2
          omega

/-! Outcome re-query lemmas. -/

theorem download_outcome_aheads_ok :
    ∀ (pre : List RpcResult), (∀ r ∈ pre, (aheadHash r).isSome) →
      ∀ (o : ExecutionOutcome) (h : CryptoHash),
        download_outcome (pre ++ [.ok o]) h =
          ⟨h :: pre.filterMap aheadHash, pre.length + 1, .got o⟩ := by
  intro pre
  induction pre with
  | nil =>
      intro _ o h
      simp [download_outcome, aheadHash]
  | cons r pre ih =>
      intro hall o h
      have hr : (aheadHash r).isSome := hall r (List.mem_cons_self r pre)
      obtain ⟨h2, hh2⟩ := Option.isSome_iff_exists.mp hr
      have hrest : ∀ x ∈ pre, (aheadHash x).isSome :=
        fun x hx => hall x (List.mem_cons_of_mem _ hx)
      rw [List.cons_append]
      simp only [download_outcome, hh2, ih hrest o h2, List.filterMap_cons,
        List.length_cons]
  
theorem download_outcome_aheads_err :
    ∀ (pre : List RpcResult), (∀ r ∈ pre, (aheadHash r).isSome) →
      ∀ (bad : RpcResult), aheadHash bad = none → (∀ o, bad ≠ .ok o) →
      ∀ (rest2 : List RpcResult) (h : CryptoHash),
        download_outcome (pre ++ bad :: rest2) h =
          ⟨h :: pre.filterMap aheadHash, pre.length + 1, .failed⟩ := by
  intro pre
  induction pre with
  | nil =>
      intro _ bad hbad hnotok rest2 h
      rcases bad with o | info | _
      · exact absurd rfl (hnotok o)
      · simp [download_outcome, hbad]
      · simp [download_outcome, hbad]
  | cons r pre ih =>
      intro hall bad hbad hnotok rest2 h
      have hr : (aheadHash r).isSome := hall r (List.mem_cons_self r pre)
      obtain ⟨h2, hh2⟩ := Option.isSome_iff_exists.mp hr
      have hrest : ∀ x ∈ pre, (aheadHash x).isSome :=
        fun x hx => hall x (List.mem_cons_of_mem _ hx)
      rw [List.cons_append]
      simp only [download_outcome, hh2, ih hrest bad hbad hnotok rest2 h2,
        List.filterMap_cons, List.length_cons]

/-! Send-failure lemmas. -/

theorem emitBlocksSends_err_iff (sendOk : Nat → Bool) :
    ∀ (blocks : List BlockView) (i : Nat) (lastSeen : BlockView),
      (emitBlocksSends sendOk i lastSeen blocks).2 = true ↔
        ∃ j, j < blocks.length ∧ sendOk (i + j) = false := by
  intro blocks
  induction blocks with
  | nil => intro i lastSeen; simp [emitBlocksSends]
  | cons b rest ih =>
      intro i lastSeen
      by_cases hs : sendOk i = true
      · rw [emitBlocksSends, if_pos hs]
        simp only [List.length_cons]
        rw [ih (i + 1) b]
        constructor
        · rintro ⟨j, hj, hf⟩
          exact ⟨j + 1, by omega, by rw [show i + (j + 1) = i + 1 + j by omega]; exact hf⟩
        · rintro ⟨j, hj, hf⟩
          cases j with
          | zero => rw [Nat.add_zero] at hf; exact absurd hs (by simp [hf])
          | succ j =>
              exact ⟨j, by omega, by rw [show i + 1 + j = i + (j + 1) by omega]; exact hf⟩
      · rw [emitBlocksSends, if_neg hs]
        simp only [List.length_cons, true_iff]
        exact ⟨0, by omega, by simpa using hs⟩

/-! ## Claim theorems -/

/-- C1, counterexample: the chunk `write_event` appends for a concrete
`message_sent` event contains nine newline bytes, not one, so the persisted
file is not a sequence of one JSON object per line. -/
theorem C1_counterexample :
    List.count '\n' (writeEventChunk exEventMS) = 9 ∧
      ¬ List.count '\n' (writeEventChunk exEventMS) = 1 := by
  exact ⟨by decide, by decide⟩

/-- C1, amended: `write_event` serializes the event with
`serde_json::to_string_pretty` and appends that encoding followed by a
single newline byte; the pretty encoding always contains newline characters
itself, so every persisted event spans several lines of the event log
rather than exactly one. -/
theorem C1_write_event_appends_pretty_multiline (e : Event) :
    writeEventChunk e = eventToJsonPretty e ++ ['\n'] ∧
      2 ≤ List.count '\n' (eventToJsonPretty e) := by
  refine ⟨rfl, ?_⟩
  obtain ⟨std, ver, kind⟩ := e
  have h1 : List.count '\n' pKeyStandard = 1 := by decide
  have h2 : List.count '\n' pKeyVersion = 1 := by decide
  cases kind <;>
    · simp only [eventToJsonPretty, dataJsonPretty, List.count_append]
      omega

/-- C2, counterexample: with last-seen block `cexL` and on-chain succession
`cexL`, `cexA`, `cexB`, the collected-and-reversed chain of the cycle is
`[cexA, cexB]`, but the emitted messages carry `[cexL, cexA]`: the already
seen block is emitted again and the newest collected block `cexB` is not
emitted in this cycle, so the emitted sequence is not the reversed collected
sequence. -/
theorem C2_counterexample :
    download_block_chain cexFetch 10 cexB cexL.hash = some [cexA, cexB] ∧
      pollerCycle (some cexB) cexFetch 10 5 ⟨cexL, 0⟩ =
        .progressed
          [.newBlock cexL cexA.hash, .newBlock cexA cexB.hash] ⟨cexB, 0⟩ ∧
      ([ManagerMessageKind.newBlock cexL cexA.hash,
          .newBlock cexA cexB.hash].filterMap carriedBlock = [cexL, cexA]) ∧
      ¬ [cexL, cexA] = [cexA, cexB] := by
  exact ⟨by decide, by decide, by decide, by decide⟩

/-- C2, amended: in a cycle where the latest block's hash differs from the
last-seen hash and the gap chain downloads successfully, the poller emits
one `NewBlock` per downloaded block; the carried blocks are the previous
last-seen block followed by all downloaded blocks except the newest, each
message pairing its carried block with the hash of the block immediately
following it; the carried sequence is oldest-first with consecutive pairs
satisfying `newer.prev_hash = older.hash`, and last-seen advances to the
newest downloaded block (whose own emission is deferred to a later
cycle). -/
theorem C2_cycle_emits_parent_linked_oldest_first
    (fetch : CryptoHash → Option BlockView) (latest : BlockView)
    (fuel maxRetry : Nat) (st : PollerState) (blocks : List BlockView)
    (hfetch : ∀ h b, fetch h = some b → b.hash = h)
    (hnew : ¬ latest.hash = st.last_seen_block.hash)
    (hchain : download_block_chain fetch fuel latest st.last_seen_block.hash =
      some blocks) :
    pollerCycle (some latest) fetch fuel maxRetry st =
        .progressed
          (List.zipWith (fun b nb => ManagerMessageKind.newBlock b nb.hash)
            (st.last_seen_block :: blocks) blocks)
          ⟨blocks.getLastD st.last_seen_block, 0⟩ ∧
      List.Chain' (fun x y => y.prev_hash = x.hash)
        (st.last_seen_block :: blocks) ∧
      blocks.getLast? = some latest := by
  have hsound := downloadChainGo_sound fetch st.last_seen_block.hash hfetch fuel
    latest [] blocks (by simp) hchain
  refine ⟨?_, ?_, ?_⟩
  · simp only [pollerCycle, if_neg hnew, hchain, emitBlocks_eq]
  · rcases blocks with _ | ⟨b0, bs⟩
    · simp at hsound
    · have h2 := hsound.1
      simp only [List.head?_cons, Option.map_some', Option.some.injEq] at h2
      exact List.chain'_cons.mpr ⟨h2, hsound.2.1⟩
  · simpa using hsound.2.2

/-- C2, witness at the concrete three-block instance. -/
theorem C2_cycle_emission_witness :
    (∀ h b, cexFetch h = some b → b.hash = h) ∧
      pollerCycle (some cexB) cexFetch 10 5 ⟨cexL, 0⟩ =
        .progressed
          (List.zipWith (fun b nb => ManagerMessageKind.newBlock b nb.hash)
            (cexL :: [cexA, cexB]) [cexA, cexB]) ⟨cexB, 0⟩ ∧
      List.Chain' (fun x y => y.prev_hash = x.hash) (cexL :: [cexA, cexB]) := by
  have hf : ∀ h b, cexFetch h = some b → b.hash = h := by
    intro h b hb
    rw [cexFetch] at hb
    by_cases hh : h = [2]
    · rw [if_pos hh] at hb
      cases hb
      rw [hh]
      rfl
    · rw [if_neg hh] at hb
      exact absurd hb (by simp)
  have h := C2_cycle_emits_parent_linked_oldest_first cexFetch cexB 10 5
    ⟨cexL, 0⟩ [cexA, cexB] hf (by decide) (by decide)
  have hlast : [cexA, cexB].getLastD cexL = cexB := by decide
  exact ⟨hf, by rw [← hlast]; exact h.1, h.2.1⟩

/-- C3, counterexample: the Router produces a `Handle` message even for a
`Data`-kind receipt — the filtering happens in the `ReceiptHandler`, not at
dispatch. -/
theorem C3_counterexample :
    exReceiptData.kind = .data ∧
      routeNewChunk exChunkData [5] = [.handle exReceiptData [5]] := by
  exact ⟨rfl, rfl⟩

/-- C3, amended: the Router dispatches a `Handle` message for every receipt
of a chunk, regardless of kind or receiver; the `ReceiptHandler` then drops
receipts whose receiver differs from the target account and `Data`-kind
receipts with no outcome query, no write, no message and no error, so only
`Action` receipts addressed to the target account proceed to outcome
resolution and the event log. -/
theorem C3_data_and_foreign_receipts_filtered :
    (∀ (chunk : ChunkView) (next : CryptoHash) (r : ReceiptView),
        r ∈ chunk.receipts →
          ReceiptHandlerMessage.handle r next ∈ routeNewChunk chunk next) ∧
      ∀ (script : List RpcResult) (writeOk : Nat → Bool) (target : List Char)
        (maxRetries : Nat) (r : ReceiptView) (next : CryptoHash),
        ¬ r.receiver_id = target ∨ r.kind = .data →
          handleReceipt script writeOk target maxRetries r next =
            ⟨[], [], [], false⟩ := by
  constructor
  · intro chunk next r hr
    exact List.mem_map_of_mem _ hr
  · intro script writeOk target maxRetries r next hcase
    rcases hcase with hne | hdata
    · rw [handleReceipt, if_pos hne]
    · by_cases hne : r.receiver_id ≠ target
      · rw [handleReceipt, if_pos hne]
      · rw [handleReceipt, if_neg hne, if_pos hdata]

/-- C3, witness: a `Data` receipt addressed to the target account is
dispatched by the Router but dropped by the `ReceiptHandler` with no query,
no write and no message. -/
theorem C3_data_and_foreign_receipts_filtered_witness :
    exReceiptData ∈ exChunkData.receipts ∧
      ReceiptHandlerMessage.handle exReceiptData [5] ∈
        routeNewChunk exChunkData [5] ∧
      exReceiptData.kind = .data ∧
      handleReceipt [] (fun _ => true) exAlice 3 exReceiptData [5] =
        ⟨[], [], [], false⟩ := by
  exact ⟨by decide,
    C3_data_and_foreign_receipts_filtered.1 exChunkData [5] exReceiptData
      (by decide),
    rfl,
    C3_data_and_foreign_receipts_filtered.2 [] (fun _ => true) exAlice 3
      exReceiptData [5] (Or.inr rfl)⟩

/-- C4: when outcome queries fail with the ahead-of-head condition carrying
a suggested hash, `download_outcome` immediately re-queries with exactly the
suggested hash; a whole chain of such conditions followed by a success
completes within a single attempt of `download_outcome_with_retry` with
zero sleeps (so the re-queries consume no outer retry budget), the queried
hashes being exactly the initial hash followed by each suggested hash in
order; and the re-query loop stops (returning the error to the outer retry
loop) exactly when a response of a different error kind is seen. -/
theorem C4_ahead_of_head_requery :
    (∀ (pre : List RpcResult) (o : ExecutionOutcome) (h : CryptoHash) (n : Nat),
        (∀ r ∈ pre, (aheadHash r).isSome) → 0 < n →
          download_outcome_with_retry (pre ++ [.ok o]) h n =
            ⟨h :: pre.filterMap aheadHash, 1, 0, .got o⟩) ∧
      ∀ (pre : List RpcResult) (bad : RpcResult) (rest2 : List RpcResult)
        (h : CryptoHash),
        (∀ r ∈ pre, (aheadHash r).isSome) → aheadHash bad = none →
        (∀ o, ¬ bad = .ok o) →
          download_outcome (pre ++ bad :: rest2) h =
            ⟨h :: pre.filterMap aheadHash, pre.length + 1, .failed⟩ := by
  constructor
  · intro pre o h n hall hn
    obtain ⟨m, rfl⟩ : ∃ m, n = m + 1 := ⟨n - 1, by omega⟩
    simp only [download_outcome_with_retry,
      download_outcome_aheads_ok pre hall o h]
  · intro pre bad rest2 h hall hbad hnotok
    exact download_outcome_aheads_err pre hall bad hbad hnotok rest2 h

/-- C4, witness: one ahead-of-head response suggesting the all-zero hash,
followed by a success, completes in one attempt with no sleep even with a
retry budget of one, querying the initial hash and then exactly the
suggested hash. -/
theorem C4_ahead_of_head_requery_witness :
    (∀ r ∈ [exAheadResponse], (aheadHash r).isSome) ∧ 0 < 1 ∧
      download_outcome_with_retry [exAheadResponse, .ok exOutcome]
          (List.replicate 32 1) 1 =
        ⟨[List.replicate 32 1, List.replicate 32 0], 1, 0, .got exOutcome⟩ := by
  have h := C4_ahead_of_head_requery.1 [exAheadResponse] exOutcome
    (List.replicate 32 1) 1 (by decide) (by decide)
  exact ⟨by decide, by decide, h.trans (by decide)⟩

/-- C6: with the retry cap set to 3 and a latest-block fetch that always
fails, the poller performs exactly 3 fetch attempts across 3 ticks,
incrementing the failure counter to 1, 2, 3, then sends exactly one
`Shutdown` and terminates in the fatal branch — for any tick budget of at
least three and any initial block. -/
theorem C6_retry_cap_shutdown (fetch : CryptoHash → Option BlockView)
    (fuel k : Nat) (b0 : BlockView) :
    pollerRun (fun _ => none) fetch fuel 3 (k + 3) 0 ⟨b0, 0⟩ =
      ⟨3, [1, 2, 3], [.shutdown], true⟩ := by
  simp [pollerRun, pollerCycle]

/-- C7: on a `NewBlock`, the Router dispatches a `Download` for exactly the
chunk hashes whose inclusion flag is true, in block order, assigning them to
pool workers cyclically from the current rotation position (the Rust code
would panic on an empty pool, hence the nonempty-pool hypothesis). -/
theorem C7_round_robin_dispatch (workers : List Nat) (start : Nat)
    (block : BlockView) (next : CryptoHash) (_hw : 0 < workers.length) :
    ((routeNewBlock workers start block next).1.map Prod.snd =
        ((block.chunks.zip block.chunk_mask).filter fun p => p.2).map fun p =>
          ChunkDownloaderMessage.download p.1 next) ∧
      ((routeNewBlock workers start block next).1.map Prod.fst =
        (List.range
            ((block.chunks.zip block.chunk_mask).filter fun p =>
              p.2).length).map
          fun i => workers.getD ((start + i) % workers.length) 0) := by
  have h := dispatchChunks_spec workers next
    (block.chunks.zip block.chunk_mask) start
  exact ⟨h.1, h.2.1⟩

/-- C7, witness: with 3 workers and a block with 6 included chunk hashes,
the dispatch order across workers is 0, 1, 2, 0, 1, 2. -/
theorem C7_round_robin_dispatch_witness :
    0 < ([0, 1, 2] : List Nat).length ∧
      (routeNewBlock [0, 1, 2] 0 c7Block [31]).1.map Prod.fst =
        [0, 1, 2, 0, 1, 2] ∧
      (routeNewBlock [0, 1, 2] 0 c7Block [31]).1.map Prod.snd =
        [.download [10] [31], .download [11] [31], .download [12] [31],
          .download [13] [31], .download [14] [31], .download [15] [31]] := by
  have h := C7_round_robin_dispatch [0, 1, 2] 0 c7Block [31] (by decide)
  exact ⟨by decide, h.2.trans (by decide), h.1.trans (by decide)⟩

/-- C8: for every `Event` value of every discriminant (well-formed, as every
event the contract can construct is: `AccountId`s are validated on
construction and a `MessageId` is 32 bytes), encoding the event to its
sentinel log line with `to_log` and parsing that line back with
`parse_event` yields `some` of an event equal to the original. -/
theorem C8_to_log_parse_event_roundtrip (e : Event)
    (h : wellFormedEvent e = true) : parse_event e.to_log = some e :=
  parse_event_to_log e h

/-- C8, witness at a concrete `message_received` event. -/
theorem C8_to_log_parse_event_roundtrip_witness :
    wellFormedEvent exEventMR = true ∧
      parse_event exEventMR.to_log = some exEventMR :=
  ⟨by decide, C8_to_log_parse_event_roundtrip exEventMR (by decide)⟩

/-- C9, counterexample: a `BlockDownloader` whose `NewBlock` send fails
stops with its own error rather than continuing, and a `ChunkDownloader`
whose `NewChunk` send fails does the same — mailbox send failure is not
ignored at every send site. -/
theorem C9_counterexample :
    emitBlocksSends (fun _ => false) 0 cexL [cexA] =
        ([.newBlock cexL cexA.hash], true) ∧
      chunkDownloadStep (some exChunkData) [5] false =
        ([.newChunk exChunkData [5]], true) := by
  exact ⟨rfl, rfl⟩

/-- C9, amended: the Router ignores mailbox send failures (its dispatch
sequence does not depend on send results), and a failing actor's `Shutdown`
notification is best-effort; but the `BlockDownloader` treats a failed
`NewBlock` send to the Router as its own failure — its emission loop errors
exactly when one of its sends fails — and the `ChunkDownloader` likewise
errors exactly when its `NewChunk` send fails. -/
theorem C9_send_failure_handling :
    (∀ (sendOk : ReceiptHandlerMessage → Bool) (chunk : ChunkView)
        (next : CryptoHash),
        (routeNewChunkSends sendOk chunk next).map Prod.fst =
          routeNewChunk chunk next) ∧
      (∀ (sendOk : Nat → Bool) (blocks : List BlockView) (i : Nat)
          (lastSeen : BlockView),
          (emitBlocksSends sendOk i lastSeen blocks).2 = true ↔
            ∃ j, j < blocks.length ∧ sendOk (i + j) = false) ∧
      ∀ (chunk : ChunkView) (next : CryptoHash) (sendOk : Bool),
        (chunkDownloadStep (some chunk) next sendOk).2 = !sendOk := by
  refine ⟨?_, ?_, ?_⟩
  · intro sendOk chunk next
    simp [routeNewChunkSends, routeNewChunk, List.map_map]
  · intro sendOk blocks i lastSeen
    exact emitBlocksSends_err_iff sendOk blocks i lastSeen
  · intro chunk next sendOk
    rfl

/-- C10: when the receipt passes the filters, the outcome query succeeds,
and appending one of the parsed events to the event log fails, the
`ReceiptHandler` does not skip the event silently: it emits `Shutdown` to
the Router and terminates with a fatal error, having persisted only the
events before the failure. -/
theorem C10_persistence_failure_fatal (script : List RpcResult)
    (writeOk : Nat → Bool) (target : List Char) (maxRetries : Nat)
    (r : ReceiptView) (next : CryptoHash) (outcome : ExecutionOutcome)
    (hrecv : r.receiver_id = target) (hkind : r.kind = .action)
    (hdl : (download_outcome_with_retry script next maxRetries).result =
      .got outcome)
    (hw : (writeEvents writeOk 0 (outcome.logs.filterMap parse_event)).2 =
      true) :
    handleReceipt script writeOk target maxRetries r next =
      ⟨(download_outcome_with_retry script next maxRetries).queries,
        (writeEvents writeOk 0 (outcome.logs.filterMap parse_event)).1,
        [.shutdown], true⟩ := by
  rw [handleReceipt, if_neg (by simp [hrecv]), if_neg (by simp [hkind])]
  simp only [hdl, hw, if_true]

/-- C10, witness: one successful outcome whose log is a sentinel event line,
with a write that always fails, yields `Shutdown` and a fatal error. -/
theorem C10_persistence_failure_fatal_witness :
    exReceiptAction.receiver_id = exAlice ∧ exReceiptAction.kind = .action ∧
      (download_outcome_with_retry [.ok exOutcome] [5] 1).result =
        .got exOutcome ∧
      (writeEvents (fun _ => false) 0
          (exOutcome.logs.filterMap parse_event)).2 = true ∧
      handleReceipt [.ok exOutcome] (fun _ => false) exAlice 1
          exReceiptAction [5] =
        ⟨(download_outcome_with_retry [.ok exOutcome] [5] 1).queries,
          (writeEvents (fun _ => false) 0
            (exOutcome.logs.filterMap parse_event)).1,
          [.shutdown], true⟩ := by
  have h := C10_persistence_failure_fatal [.ok exOutcome] (fun _ => false)
    exAlice 1 exReceiptAction [5] exOutcome rfl rfl (by decide) (by decide)
  exact ⟨rfl, rfl, by decide, by decide, h⟩

/-- C5, counterexample: an error text embedding `block <hash>` in its middle
— the token after it being a valid base-58 32-byte hash — yields nothing,
because the extraction only strips a leading `block `. -/
theorem C5_counterexample :
    containsSub embeddedBlockMsg.data (blockSpaceLit ++ zeroHashB58) = true ∧
      CryptoHash.fromStr zeroHashB58 = some (List.replicate 32 0) ∧
      try_parse_block_hash_from_err_message embeddedBlockMsg = none := by
  exact ⟨by decide, by decide, by decide⟩

/-- C5, amended: the hash extraction succeeds exactly when the error text
starts with the literal `block `, in which case it returns the base-58
decoding of the token extending to the next space; a `block <hash>`
occurring anywhere later in the text is not extracted. -/
theorem C5_hash_extraction_prefix_only (msg : String) (h : CryptoHash) :
    try_parse_block_hash_from_err_message msg = some h ↔
      ∃ rest : List Char, msg.data = blockSpaceLit ++ rest ∧
        CryptoHash.fromStr (rest.takeWhile (· != ' ')) = some h := by
  rw [try_parse_block_hash_from_err_message]
  constructor
  · intro hsome
    rcases hstrip : stripPref blockSpaceLit msg.data with _ | rest
    · rw [hstrip] at hsome
      simp at hsome
    · rw [hstrip, Option.some_bind] at hsome
      exact ⟨rest, (stripPref_eq_some _ _ _).mp hstrip, hsome⟩
  · rintro ⟨rest, hmsg, hfrom⟩
    rw [(stripPref_eq_some _ _ _).mpr hmsg, Option.some_bind]
    exact hfrom
